import Mathlib

/-!
Shallow embedding of the RecipeVault recipe-cost calculator
(src/shared/recipeCostCalculator.ts).

Modelling conventions:
* JavaScript numbers are modelled as exact rationals.  An Option value
  stands for a JS number that may be NaN (none is NaN).  Division by zero
  on rationals yields 0 where JS would produce a non-finite value; in this
  code that can only happen in the mixed-fraction branch of parseFraction
  with a zero denominator, and in a custom conversion factor that fails to
  parse (JS would propagate NaN through the cost arithmetic there).
* JS toLowerCase is modelled on the ASCII range (the only range the unit
  alias tables use); trim uses the common ASCII whitespace characters.
* JS object literals are modelled as association lists looked up in order;
  object-key truthiness tests are modelled by jsTruthy.
-/

namespace RecipeVault

/-- ASCII whitespace as accepted by the JS trim and regex whitespace class. -/
def isJsSpace (c : Char) : Bool :=
  c = ' ' || c = '\t' || c = '\n' || c = '\r' || c = '\x0b' || c = '\x0c'

/-- ASCII lower-casing of a single character, as JS toLowerCase acts on A-Z. -/
def asciiLower (c : Char) : Char :=
  if 65 ≤ c.toNat ∧ c.toNat ≤ 90 then Char.ofNat (c.toNat + 32) else c

/-- Lower-case every character of a character list. -/
def lowerL (l : List Char) : List Char := l.map asciiLower

/-- Drop leading whitespace. -/
def ltrimL (l : List Char) : List Char := l.dropWhile isJsSpace

/-- Drop trailing whitespace. -/
def rtrimL (l : List Char) : List Char := (l.reverse.dropWhile isJsSpace).reverse

/-- Drop whitespace at both ends, as JS String.prototype.trim does. -/
def trimL (l : List Char) : List Char := rtrimL (ltrimL l)

/-- JS toLowerCase on strings (ASCII range). -/
def jsToLower (s : String) : String := ⟨lowerL s.data⟩

/-- JS trim on strings. -/
def jsTrim (s : String) : String := ⟨trimL s.data⟩

/-- Access a JS object field: first binding of the key in an association list. -/
def objGet {α : Type} : List (String × α) → String → Option α
  | [], _ => none
  | (k, v) :: rest, key => if k = key then some v else objGet rest key

/-- Truthiness of a JS number-or-undefined value: undefined and 0 are falsy. -/
def jsTruthy (x : Option ℚ) : Bool :=
  match x with
  | none => false
  | some v => v != 0

/-- Numeric value of a decimal digit character. -/
def digitVal (c : Char) : ℕ := c.toNat - 48

/-- Value of a string of decimal digits. -/
def digitsToNat (ds : List Char) : ℕ :=
  ds.foldl (fun acc c => acc * 10 + digitVal c) 0

/-- Ten to a natural power, as a rational. -/
def qpow10 : ℕ → ℚ
  | 0 => 1
  | n + 1 => 10 * qpow10 n

/-- Ten to an integer power, as a rational. -/
def pow10z (e : ℤ) : ℚ :=
  if 0 ≤ e then qpow10 e.toNat else 1 / qpow10 (-e).toNat

/-- Exponent part of a JS float literal: optional sign then digits; an
exponent with no digits contributes nothing. -/
def parseExpPart (cs : List Char) : ℤ :=
  let sr : ℤ × List Char :=
    match cs with
    | '-' :: r => (-1, r)
    | '+' :: r => (1, r)
    | _ => (1, cs)
  let ds := sr.2.takeWhile Char.isDigit
  if ds = [] then 0 else sr.1 * (digitsToNat ds : ℤ)

/-- JS parseFloat: skip leading whitespace, read an optional sign, the
longest digits-dot-digits prefix and an optional exponent; none models NaN
(no digits found).  The Infinity literal is not modelled. -/
def jsParseFloat (s : String) : Option ℚ :=
  let cs := s.data.dropWhile isJsSpace
  let sr : ℚ × List Char :=
    match cs with
    | '-' :: rest => (-1, rest)
    | '+' :: rest => (1, rest)
    | _ => (1, cs)
  let intPart := sr.2.takeWhile Char.isDigit
  let cs2 := sr.2.dropWhile Char.isDigit
  let fr : List Char × List Char :=
    match cs2 with
    | '.' :: rest => (rest.takeWhile Char.isDigit, rest.dropWhile Char.isDigit)
    | _ => ([], cs2)
  if intPart = [] ∧ fr.1 = [] then none
  else
    let mantissa : ℚ := (digitsToNat intPart : ℚ) + (digitsToNat fr.1 : ℚ) / qpow10 fr.1.length
    let e : ℤ :=
      match fr.2 with
      | 'e' :: rest => parseExpPart rest
      | 'E' :: rest => parseExpPart rest
      | _ => 0
    some (sr.1 * mantissa * pow10z e)

/-- The UNIT_ALIASES table from the source, in source order. -/
def UNIT_ALIASES : List (String × List String) :=
  [("g", ["g", "gr", "gram", "grams", "gm"]),
   ("kg", ["kg", "kilo", "kilogram", "kilograms"]),
   ("ml", ["ml", "milliliter", "millilitre", "milliliters", "millilitres"]),
   ("l", ["l", "liter", "litre", "liters", "litres"]),
   ("unit", ["unit", "units", "ea", "each", "piece", "pieces", "pc", "pcs"]),
   ("cup", ["cup", "cups", "c"]),
   ("tbsp", ["tbsp", "tablespoon", "tablespoons", "tbs"]),
   ("tsp", ["tsp", "teaspoon", "teaspoons"]),
   ("oz", ["oz", "ounce", "ounces"]),
   ("lb", ["lb", "lbs", "pound", "pounds"]),
   ("bunch", ["bunch", "bunches"]),
   ("head", ["head", "heads"]),
   ("clove", ["clove", "cloves"]),
   ("can", ["can", "cans", "tin", "tins"]),
   ("bottle", ["bottle", "bottles"]),
   ("jar", ["jar", "jars"]),
   ("pack", ["pack", "packs", "packet", "packets"]),
   ("box", ["box", "boxes"]),
   ("bag", ["bag", "bags"]),
   ("slice", ["slice", "slices"])]

/-- The STANDARD_CONVERSIONS table from the source, in source order. -/
def STANDARD_CONVERSIONS : List (String × List (String × ℚ)) :=
  [("g", [("kg", 0.001), ("oz", 0.03527)]),
   ("kg", [("g", 1000), ("lb", 2.20462)]),
   ("ml", [("l", 0.001), ("cup", 0.00423)]),
   ("l", [("ml", 1000), ("cup", 4.227)]),
   ("oz", [("g", 28.3495), ("lb", 0.0625)]),
   ("lb", [("oz", 16), ("kg", 0.453592), ("g", 453.592)]),
   ("cup", [("ml", 236.588), ("l", 0.236588)]),
   ("tbsp", [("tsp", 3), ("ml", 14.787)]),
   ("tsp", [("tbsp", 0.333), ("ml", 4.929)])]

/-- normalizeUnit from the source: lower-case and trim, then return the
first canonical unit whose alias list contains the result, else the
lower-cased trimmed input itself. -/
def normalizeUnit (unit : String) : String :=
  let lower := jsTrim (jsToLower unit)
  match UNIT_ALIASES.find? (fun e => e.2.contains lower) with
  | some e => e.1
  | none => lower

/-- Nested lookup STANDARD_CONVERSIONS[u1]?.[u2]. -/
def stdLookup (u1 u2 : String) : Option ℚ :=
  match objGet STANDARD_CONVERSIONS u1 with
  | none => none
  | some row => objGet row u2

/-- getStandardConversionFactor from the source: 1 for equal normalized
units, else the direct table factor, else the reciprocal of the reverse
factor, else none. -/
def getStandardConversionFactor (fromUnit toUnit : String) : Option ℚ :=
  let normFrom := normalizeUnit fromUnit
  let normTo := normalizeUnit toUnit
  if normFrom = normTo then some 1
  else if jsTruthy (stdLookup normFrom normTo) then stdLookup normFrom normTo
  else if jsTruthy (stdLookup normTo normFrom) then
    (stdLookup normTo normFrom).map (fun v => 1 / v)
  else none

/-- RecipeIngredientWithInventory from the source. -/
structure InventoryItemData where
  id : String
  name : String
  unitQuantity : String
  unit : String
  unitPrice : String
deriving DecidableEq

structure RecipeIngredientWithInventory where
  quantity : String
  unit : String
  inventoryItem : InventoryItemData
deriving DecidableEq

/-- UnitConversion from the source. -/
structure UnitConversion where
  id : String
  inventoryItemId : String
  fromUnit : String
  toUnit : String
  conversionFactor : String
deriving DecidableEq

/-- UnitMismatchWarning from the source; an absent conversion field is none. -/
structure UnitMismatchWarning where
  ingredientName : String
  recipeUnit : String
  inventoryUnit : String
  inventoryItemId : String
  inventoryItemName : String
  canConvert : Bool
  conversion : Option UnitConversion
deriving DecidableEq

/-- CostCalculationResult from the source; an absent usedConversion is none. -/
structure CostCalculationResult where
  cost : ℚ
  hasUnitMismatch : Bool
  usedConversion : Option UnitConversion
deriving DecidableEq

/-- The fractionMap of parseFraction, with the decimal constants of the
source as exact rationals. -/
def fractionMap : List (String × ℚ) :=
  [("¼", 0.25), ("½", 0.5), ("¾", 0.75), ("⅓", 0.333), ("⅔", 0.667),
   ("⅛", 0.125), ("⅜", 0.375), ("⅝", 0.625), ("⅞", 0.875)]

/-- The vulgar-fraction character class of the mixed-number regex. -/
def vulgarChars : List Char := ['¼', '½', '¾', '⅓', '⅔', '⅛', '⅜', '⅝', '⅞']

/-- JS String.prototype.split with separator "/". -/
def splitOnSlash : List Char → List (List Char)
  | [] => [[]]
  | c :: rest =>
    if c = '/' then [] :: splitOnSlash rest
    else
      match splitOnSlash rest with
      | [] => [[c]]
      | p :: ps => (c :: p) :: ps

/-- The fraction capture of the mixed-number regex: either one vulgar
fraction character, or an ASCII numerator/denominator pair of digits. -/
inductive MixedFrac where
  | vulgar (c : Char)
  | slash (num den : List Char)
deriving DecidableEq

/-- Match the digits-slash-digits alternative against an entire suffix. -/
def slashAlt (cs : List Char) : Option MixedFrac :=
  let d2 := cs.takeWhile Char.isDigit
  match cs.dropWhile Char.isDigit with
  | '/' :: tail =>
    if d2 ≠ [] ∧ tail ≠ [] ∧ tail.all Char.isDigit then some (.slash d2 tail) else none
  | _ => none

/-- Match the regex alternation (one vulgar char, or digits/digits)
against an entire suffix. -/
def mixedAlt (cs : List Char) : Option MixedFrac :=
  match cs with
  | [c] => if vulgarChars.contains c then some (.vulgar c) else none
  | _ => slashAlt cs

/-- Whole-string match of the anchored mixed-number regex: a digit run,
optional whitespace, then the fraction alternation.  With no whitespace
the greedy first digit group backtracks exactly one digit so that the
ASCII alternative can supply its numerator. -/
def mixedMatch (cs : List Char) : Option (List Char × MixedFrac) :=
  let d := cs.takeWhile Char.isDigit
  let rest := cs.dropWhile Char.isDigit
  if d = [] then none
  else
    let sp := rest.takeWhile isJsSpace
    let rest2 := rest.dropWhile isJsSpace
    match mixedAlt rest2 with
    | some f => some (d, f)
    | none =>
      if sp = [] then
        match rest with
        | '/' :: tail =>
          if 2 ≤ d.length ∧ tail ≠ [] ∧ tail.all Char.isDigit then
            some (d.dropLast, .slash [d.getLastD '0'] tail)
          else none
        | _ => none
      else none

/-- Value of the fraction capture: the fractionMap entry for a vulgar
character, or numerator / denominator for the ASCII pair (a zero
denominator, non-finite in JS, is rational division by zero here). -/
def fracPartValue : MixedFrac → ℚ
  | .vulgar c =>
    match objGet fractionMap (String.mk [c]) with
    | some v => v
    | none => 0
  | .slash num den => (digitsToNat num : ℚ) / (digitsToNat den : ℚ)

/-- parseFraction from the source: trim; whole-string vulgar fraction;
ASCII fraction via split on the slash when both parts parse and the
denominator is nonzero; mixed whole-plus-fraction via the regex; finally
parseFloat with NaN collapsed to 0. -/
def parseFraction (str : String) : ℚ :=
  let trimmed := jsTrim str
  if jsTruthy (objGet fractionMap trimmed) then (objGet fractionMap trimmed).getD 0
  else
    let slashResult : Option ℚ :=
      if trimmed.data.contains '/' then
        let parts := splitOnSlash trimmed.data
        match jsParseFloat ⟨trimL (parts.getD 0 [])⟩, jsParseFloat ⟨trimL (parts.getD 1 [])⟩ with
        | some numerator, some denominator =>
          if denominator ≠ 0 then some (numerator / denominator) else none
        | _, _ => none
      else none
    match slashResult with
    | some v => v
    | none =>
      match mixedMatch trimmed.data with
      | some (whole, f) => (digitsToNat whole : ℚ) + fracPartValue f
      | none =>
        match jsParseFloat trimmed with
        | some v => v
        | none => 0

/-- The predicate of the customConversions.find in the source. -/
def customMatches (ingredient : RecipeIngredientWithInventory) (c : UnitConversion) : Bool :=
  c.inventoryItemId == ingredient.inventoryItem.id &&
  normalizeUnit c.fromUnit == normalizeUnit ingredient.unit &&
  normalizeUnit c.toUnit == normalizeUnit ingredient.inventoryItem.unit

/-- calculateIngredientCostWithConversion from the source.  The triple fmu
is (conversionFactor, hasUnitMismatch, usedConversion) as left by the
source branch ladder; a custom conversion factor that fails to parse (NaN
in JS, propagating to a NaN cost) is modelled as 0. -/
def calculateIngredientCostWithConversion (ingredient : RecipeIngredientWithInventory)
    (customConversions : List UnitConversion) : CostCalculationResult :=
  let recipeQuantity := parseFraction ingredient.quantity
  let inventoryQuantity := parseFraction ingredient.inventoryItem.unitQuantity
  let inventoryPrice? := jsParseFloat ingredient.inventoryItem.unitPrice
  if recipeQuantity = 0 ∨ inventoryQuantity = 0 ∨ inventoryPrice? = none then
    { cost := 0, hasUnitMismatch := false, usedConversion := none }
  else
    let inventoryPrice := inventoryPrice?.getD 0
    let recipeUnit := normalizeUnit ingredient.unit
    let inventoryUnit := normalizeUnit ingredient.inventoryItem.unit
    let fmu : ℚ × Bool × Option UnitConversion :=
      if recipeUnit = inventoryUnit then (1, false, none)
      else
        match getStandardConversionFactor recipeUnit inventoryUnit with
        | some standardConversion => (standardConversion, false, none)
        | none =>
          match customConversions.find? (customMatches ingredient) with
          | some customConversion =>
            ((jsParseFloat customConversion.conversionFactor).getD 0, false, some customConversion)
          | none => (1, true, none)
    let convertedQuantity := recipeQuantity * fmu.1
    let costPerUnit := inventoryPrice / inventoryQuantity
    let totalCost := costPerUnit * convertedQuantity
    { cost := if fmu.2.1 then 0 else totalCost,
      hasUnitMismatch := fmu.2.1,
      usedConversion := fmu.2.2 }

/-- calculateIngredientCost, the legacy single-line entry point. -/
def calculateIngredientCost (ingredient : RecipeIngredientWithInventory) : ℚ :=
  (calculateIngredientCostWithConversion ingredient []).cost

/-- calculateRecipeCost from the source: accumulate line costs in a loop. -/
def calculateRecipeCost (ingredients : List RecipeIngredientWithInventory)
    (customConversions : List UnitConversion) : ℚ :=
  ingredients.foldl
    (fun totalCost ingredient =>
      totalCost + (calculateIngredientCostWithConversion ingredient customConversions).cost) 0

/-- The warning record pushed by detectUnitMismatches. -/
def mkWarning (ingredient : RecipeIngredientWithInventory) (canConvert : Bool)
    (conversion : Option UnitConversion) : UnitMismatchWarning :=
  { ingredientName := ingredient.inventoryItem.name
    recipeUnit := ingredient.unit
    inventoryUnit := ingredient.inventoryItem.unit
    inventoryItemId := ingredient.inventoryItem.id
    inventoryItemName := ingredient.inventoryItem.name
    canConvert := canConvert
    conversion := conversion }

/-- detectUnitMismatches from the source: scan every line; lines whose
normalized units agree or have a standard conversion contribute nothing;
otherwise a warning is pushed, canConvert true with the conversion when a
custom conversion matches, canConvert false when none does. -/
def detectUnitMismatches (ingredients : List RecipeIngredientWithInventory)
    (customConversions : List UnitConversion) : List UnitMismatchWarning :=
  match ingredients with
  | [] => []
  | ingredient :: rest =>
    let recipeUnit := normalizeUnit ingredient.unit
    let inventoryUnit := normalizeUnit ingredient.inventoryItem.unit
    let here : List UnitMismatchWarning :=
      if recipeUnit = inventoryUnit then []
      else
        match getStandardConversionFactor recipeUnit inventoryUnit with
        | some _ => []
        | none =>
          match customConversions.find? (customMatches ingredient) with
          | some customConversion => [mkWarning ingredient true (some customConversion)]
          | none => [mkWarning ingredient false none]
    here ++ detectUnitMismatches rest customConversions

/-- The record returned by calculateRecipeCostDetailed. -/
structure DetailedResult where
  totalCost : ℚ
  ingredientCosts : List (RecipeIngredientWithInventory × CostCalculationResult)
  mismatches : List UnitMismatchWarning
  linkedCount : ℕ
  totalIngredients : ℕ
deriving DecidableEq

/-- calculateRecipeCostDetailed from the source: per-line results, their
reduced sum, and the mismatch scan filtered to the unconvertible ones. -/
def calculateRecipeCostDetailed (ingredients : List RecipeIngredientWithInventory)
    (customConversions : List UnitConversion) : DetailedResult :=
  let ingredientCosts := ingredients.map
    (fun ingredient => (ingredient, calculateIngredientCostWithConversion ingredient customConversions))
  let totalCost := ingredientCosts.foldl (fun sum ic => sum + ic.2.cost) 0
  let mismatches := detectUnitMismatches ingredients customConversions
  { totalCost := totalCost
    ingredientCosts := ingredientCosts
    mismatches := mismatches.filter (fun m => !m.canConvert)
    linkedCount := ingredients.length
    totalIngredients := ingredients.length }

/-- A line whose recipe quantity parses negative while price and purchase
quantity are non-negative. -/
def c3NegLine : RecipeIngredientWithInventory :=
  { quantity := "-1", unit := "g",
    inventoryItem := { id := "i1", name := "salt", unitQuantity := "1", unit := "g", unitPrice := "1" } }

/-- A well-formed line: 200 g drawn from a 1000 g purchase priced 12.00. -/
def c3OkLine : RecipeIngredientWithInventory :=
  { quantity := "200", unit := "g",
    inventoryItem := { id := "i2", name := "flour", unitQuantity := "1000", unit := "g", unitPrice := "12.00" } }

/-- A line needing a custom conversion: grams requested, inventory in units. -/
def c4Line : RecipeIngredientWithInventory :=
  { quantity := "200", unit := "g",
    inventoryItem := { id := "i3", name := "ham", unitQuantity := "1", unit := "unit", unitPrice := "5" } }

/-- The custom conversion of the end-to-end example, recipe to inventory. -/
def c4Conv : UnitConversion :=
  { id := "c1", inventoryItemId := "i3", fromUnit := "g", toUnit := "unit", conversionFactor := "0.01" }

/-- A line with no resolution at all: grams against units and no custom entry. -/
def c5Line : RecipeIngredientWithInventory :=
  { quantity := "2", unit := "g",
    inventoryItem := { id := "i4", name := "egg", unitQuantity := "1", unit := "unit", unitPrice := "3" } }

/-- A line whose recipe quantity parses to zero. -/
def c6Line : RecipeIngredientWithInventory :=
  { quantity := "0", unit := "g",
    inventoryItem := { id := "i5", name := "milk", unitQuantity := "1", unit := "g", unitPrice := "2" } }

/-- A numerically valid but unit-unresolvable line. -/
def c7Line : RecipeIngredientWithInventory :=
  { quantity := "2", unit := "g",
    inventoryItem := { id := "i6", name := "jam", unitQuantity := "1", unit := "unit", unitPrice := "7" } }

section Lemmas

/-- Folding addition of a projection over a list from any seed is the seed
plus the sum of the projections. -/
theorem foldl_add_proj {α : Type} (f : α → ℚ) :
    ∀ (l : List α) (c : ℚ), l.foldl (fun acc x => acc + f x) c = c + (l.map f).sum
  | [], c => by simp
  | x :: l, c => by
    rw [List.foldl_cons, foldl_add_proj f l (c + f x), List.map_cons, List.sum_cons]
    ring

/-- A value found by objGet is a binding of the association list. -/
theorem objGet_mem {α : Type} :
    ∀ (l : List (String × α)) (k : String) (v : α), objGet l k = some v → (k, v) ∈ l
  | [], _, _, h => by simp [objGet] at h
  | (k', v') :: rest, k, v, h => by
    by_cases hk : k' = k
    · simp [objGet, hk] at h
      simp [hk, h]
    · simp [objGet, hk] at h
      exact List.mem_cons_of_mem _ (objGet_mem rest k v h)

/-- Every factor stored in the standard conversion table is positive. -/
theorem std_table_pos :
    ∀ row ∈ STANDARD_CONVERSIONS, ∀ e ∈ row.2, (0 : ℚ) < e.2 := by
  intro row hrow e he
  fin_cases hrow <;> fin_cases he <;> norm_num [STANDARD_CONVERSIONS]

/-- A nested standard-table lookup returns a positive factor. -/
theorem stdLookup_pos (u1 u2 : String) (v : ℚ) (h : stdLookup u1 u2 = some v) : 0 < v := by
  unfold stdLookup at h
  cases hrow : objGet STANDARD_CONVERSIONS u1 with
  | none => rw [hrow] at h; exact absurd h (by simp)
  | some rw =>
    rw [hrow] at h
    exact std_table_pos _ (objGet_mem _ _ _ hrow) _ (objGet_mem _ _ _ h)

/-- Any factor getStandardConversionFactor resolves is positive. -/
theorem getStandardConversionFactor_pos (a b : String) (v : ℚ)
    (h : getStandardConversionFactor a b = some v) : 0 < v := by
  unfold getStandardConversionFactor at h
  by_cases h0 : normalizeUnit a = normalizeUnit b
  · rw [if_pos h0] at h
    cases h
    norm_num
  · rw [if_neg h0] at h
    by_cases h1 : jsTruthy (stdLookup (normalizeUnit a) (normalizeUnit b)) = true
    · rw [if_pos h1] at h
      exact stdLookup_pos _ _ _ h
    · rw [if_neg h1] at h
      by_cases h2 : jsTruthy (stdLookup (normalizeUnit b) (normalizeUnit a)) = true
      · rw [if_pos h2] at h
        cases hl : stdLookup (normalizeUnit b) (normalizeUnit a) with
        | none => rw [hl] at h; exact absurd h (by simp)
        | some w =>
          rw [hl] at h
          simp only [Option.map_some'] at h
          cases h
          exact one_div_pos.mpr (stdLookup_pos _ _ _ hl)
      · rw [if_neg h2] at h
        exact absurd h (by simp)

/-- Unfolding of the cost function once the incomplete-data guard fails:
the result is built from the factor-mismatch-conversion triple of the
branch ladder. -/
theorem calc_main_eq (ingredient : RecipeIngredientWithInventory)
    (customConversions : List UnitConversion)
    (hq : parseFraction ingredient.quantity ≠ 0)
    (hiq : parseFraction ingredient.inventoryItem.unitQuantity ≠ 0)
    (p : ℚ) (hp : jsParseFloat ingredient.inventoryItem.unitPrice = some p) :
    calculateIngredientCostWithConversion ingredient customConversions =
      (let fmu : ℚ × Bool × Option UnitConversion :=
        if normalizeUnit ingredient.unit = normalizeUnit ingredient.inventoryItem.unit then
          (1, false, none)
        else
          match getStandardConversionFactor (normalizeUnit ingredient.unit)
              (normalizeUnit ingredient.inventoryItem.unit) with
          | some standardConversion => (standardConversion, false, none)
          | none =>
            match customConversions.find? (customMatches ingredient) with
            | some customConversion =>
              ((jsParseFloat customConversion.conversionFactor).getD 0, false, some customConversion)
            | none => (1, true, none)
       { cost := if fmu.2.1 then 0
           else (p / parseFraction ingredient.inventoryItem.unitQuantity) *
             (parseFraction ingredient.quantity * fmu.1),
         hasUnitMismatch := fmu.2.1,
         usedConversion := fmu.2.2 }) := by
  rw [calculateIngredientCostWithConversion,
    if_neg (by simp [hq, hiq, hp]), hp]
  rfl

/-- Evaluation scheme for jsParseFloat on an unsigned digits-only string. -/
theorem jpf_digit_list (s : String) (n : ℕ)
    (hred : jsParseFloat s = some (1 * ((digitsToNat s.data : ℚ) +
      (digitsToNat ([] : List Char) : ℚ) / qpow10 0) * pow10z 0))
    (hn : digitsToNat s.data = n) : jsParseFloat s = some n := by
  rw [hred, hn]
  norm_num [digitsToNat, qpow10, pow10z]

/-- Evaluation scheme for parseFraction on an unsigned digits-only string. -/
theorem pf_digit_list (s : String) (n : ℕ)
    (hred : parseFraction s = 1 * ((digitsToNat s.data : ℚ) +
      (digitsToNat ([] : List Char) : ℚ) / qpow10 0) * pow10z 0)
    (hn : digitsToNat s.data = n) : parseFraction s = n := by
  rw [hred, hn]
  norm_num [digitsToNat, qpow10, pow10z]

theorem jpf_zero : jsParseFloat "0" = some 0 := jpf_digit_list "0" 0 rfl (by decide)

theorem jpf_one : jsParseFloat "1" = some 1 := jpf_digit_list "1" 1 rfl (by decide)

theorem jpf_two : jsParseFloat "2" = some 2 := jpf_digit_list "2" 2 rfl (by decide)

theorem jpf_three : jsParseFloat "3" = some 3 := jpf_digit_list "3" 3 rfl (by decide)

theorem jpf_four : jsParseFloat "4" = some 4 := jpf_digit_list "4" 4 rfl (by decide)

theorem jpf_five : jsParseFloat "5" = some 5 := jpf_digit_list "5" 5 rfl (by decide)

theorem jpf_seven : jsParseFloat "7" = some 7 := jpf_digit_list "7" 7 rfl (by decide)

theorem jpf_twelve : jsParseFloat "12.00" = some 12 := by
  rw [show jsParseFloat "12.00" = some (1 * ((digitsToNat ['1', '2'] : ℚ) +
    (digitsToNat ['0', '0'] : ℚ) / qpow10 2) * pow10z 0) from rfl,
    show digitsToNat ['1', '2'] = 12 from by decide,
    show digitsToNat ['0', '0'] = 0 from by decide]
  norm_num [qpow10, pow10z]

theorem jpf_centi : jsParseFloat "0.01" = some (1 / 100) := by
  rw [show jsParseFloat "0.01" = some (1 * ((digitsToNat ['0'] : ℚ) +
    (digitsToNat ['0', '1'] : ℚ) / qpow10 2) * pow10z 0) from rfl,
    show digitsToNat ['0'] = 0 from by decide,
    show digitsToNat ['0', '1'] = 1 from by decide]
  norm_num [qpow10, pow10z]

theorem pf_zero : parseFraction "0" = 0 := pf_digit_list "0" 0 rfl (by decide)

theorem pf_one : parseFraction "1" = 1 := pf_digit_list "1" 1 rfl (by decide)

theorem pf_two : parseFraction "2" = 2 := pf_digit_list "2" 2 rfl (by decide)

theorem pf_twoHundred : parseFraction "200" = 200 := pf_digit_list "200" 200 rfl (by decide)

theorem pf_thousand : parseFraction "1000" = 1000 := pf_digit_list "1000" 1000 rfl (by decide)

theorem pf_negOne : parseFraction "-1" = -1 := by
  rw [show parseFraction "-1" = (-1) * ((digitsToNat ['1'] : ℚ) +
    (digitsToNat ([] : List Char) : ℚ) / qpow10 0) * pow10z 0 from rfl,
    show digitsToNat ['1'] = 1 from by decide]
  norm_num [digitsToNat, qpow10, pow10z]

/-- Evaluation scheme for parseFraction on a fractionMap hit. -/
theorem parseFraction_vulgar (s : String) (v : ℚ)
    (h : objGet fractionMap (jsTrim s) = some v) (hv : v ≠ 0) : parseFraction s = v := by
  rw [parseFraction, if_pos (by rw [h]; simp [jsTruthy, bne_iff_ne, hv]), h]
  rfl

theorem pf_half : parseFraction "½" = 0.5 :=
  parseFraction_vulgar "½" 0.5 rfl (by norm_num)

theorem pf_abc : parseFraction "abc" = 0 := rfl

theorem pf_oneHalf : parseFraction "1 ½" = 1.5 := by
  rw [show parseFraction "1 ½" = (digitsToNat ['1'] : ℚ) + 0.5 from rfl,
    show digitsToNat ['1'] = 1 from by decide]
  norm_num

/-- Evaluation of the ASCII-fraction branch of parseFraction when both
parts parse and the denominator is nonzero. -/
theorem parseFraction_slash (s : String) (n d : ℚ)
    (h0 : jsTruthy (objGet fractionMap (jsTrim s)) = false)
    (h1 : (jsTrim s).data.contains '/' = true)
    (hn : jsParseFloat ⟨trimL ((splitOnSlash (jsTrim s).data).getD 0 [])⟩ = some n)
    (hd : jsParseFloat ⟨trimL ((splitOnSlash (jsTrim s).data).getD 1 [])⟩ = some d)
    (hne : d ≠ 0) :
    parseFraction s = n / d := by
  simp only [parseFraction]
  rw [if_neg (by rw [h0]; exact Bool.false_ne_true), if_pos h1, hn, hd]
  simp [hne]

/-- Evaluation of parseFraction falling past the ASCII-fraction branch
because the denominator parses to zero. -/
theorem parseFraction_slash_zero (s : String) (n d : ℚ)
    (h0 : jsTruthy (objGet fractionMap (jsTrim s)) = false)
    (h1 : (jsTrim s).data.contains '/' = true)
    (hn : jsParseFloat ⟨trimL ((splitOnSlash (jsTrim s).data).getD 0 [])⟩ = some n)
    (hd : jsParseFloat ⟨trimL ((splitOnSlash (jsTrim s).data).getD 1 [])⟩ = some d)
    (hz : d = 0) :
    parseFraction s =
      (match mixedMatch (jsTrim s).data with
       | some (whole, f) => (digitsToNat whole : ℚ) + fracPartValue f
       | none =>
         match jsParseFloat (jsTrim s) with
         | some v => v
         | none => 0) := by
  simp only [parseFraction]
  rw [if_neg (by rw [h0]; exact Bool.false_ne_true), if_pos h1, hn, hd]
  simp [hz]

theorem pf_quarter : parseFraction "1/4" = 0.25 := by
  rw [parseFraction_slash "1/4" 1 4 (by decide) (by decide) jpf_one jpf_four (by norm_num)]
  norm_num

theorem pf_threeSlashZero : parseFraction "3/0" = 3 := by
  rw [parseFraction_slash_zero "3/0" 3 0 (by decide) (by decide) jpf_three jpf_zero rfl,
    show (match mixedMatch (jsTrim "3/0").data with
      | some (whole, f) => (digitsToNat whole : ℚ) + fracPartValue f
      | none =>
        match jsParseFloat (jsTrim "3/0") with
        | some v => v
        | none => 0) =
      1 * ((digitsToNat ['3'] : ℚ) + (digitsToNat ([] : List Char) : ℚ) / qpow10 0) * pow10z 0
      from rfl,
    show digitsToNat ['3'] = 3 from by decide]
  norm_num [digitsToNat, qpow10, pow10z]

/-- find? on a split list whose first segment has no match returns the
splitting element when it matches. -/
theorem find?_append_first {α : Type} (p : α → Bool) (l₁ l₂ : List α) (a : α)
    (h1 : ∀ c ∈ l₁, p c = false) (ha : p a = true) :
    (l₁ ++ a :: l₂).find? p = some a := by
  induction l₁ with
  | nil => simpa using List.find?_cons_of_pos _ ha
  | cons x l ih =>
    have hx : p x = false := h1 x (by simp)
    rw [List.cons_append, List.find?_cons_of_neg _ (by simp [hx])]
    exact ih (fun c hc => h1 c (by simp [hc]))

/-- A flagged mismatch always comes with a zero cost. -/
theorem cost_zero_of_mismatch (ingredient : RecipeIngredientWithInventory)
    (customConversions : List UnitConversion)
    (h : (calculateIngredientCostWithConversion ingredient customConversions).hasUnitMismatch = true) :
    (calculateIngredientCostWithConversion ingredient customConversions).cost = 0 := by
  rw [calculateIngredientCostWithConversion] at h ⊢
  by_cases hg : parseFraction ingredient.quantity = 0 ∨
      parseFraction ingredient.inventoryItem.unitQuantity = 0 ∨
      jsParseFloat ingredient.inventoryItem.unitPrice = none
  · rw [if_pos hg]
  · rw [if_neg hg] at h ⊢
    simp only at h ⊢
    rw [h]
    simp

/-- Resolution through a direct entry of the standard table. -/
theorem getStd_direct (a b : String) (v : ℚ)
    (hne : normalizeUnit a ≠ normalizeUnit b)
    (hl : stdLookup (normalizeUnit a) (normalizeUnit b) = some v)
    (hv : v ≠ 0) :
    getStandardConversionFactor a b = some v := by
  simp only [getStandardConversionFactor]
  rw [if_neg hne, hl]
  simp [jsTruthy, bne_iff_ne, hv]

/-- Resolution by inverting the reverse entry of the standard table. -/
theorem getStd_inverse (a b : String) (v : ℚ)
    (hne : normalizeUnit a ≠ normalizeUnit b)
    (hl1 : stdLookup (normalizeUnit a) (normalizeUnit b) = none)
    (hl2 : stdLookup (normalizeUnit b) (normalizeUnit a) = some v)
    (hv : v ≠ 0) :
    getStandardConversionFactor a b = some (1 / v) := by
  simp only [getStandardConversionFactor]
  rw [if_neg hne, hl1, hl2]
  simp [jsTruthy, bne_iff_ne, hv]

/-- ASCII lower-casing is idempotent. -/
theorem asciiLower_idem (c : Char) : asciiLower (asciiLower c) = asciiLower c := by
  by_cases h : 65 ≤ c.toNat ∧ c.toNat ≤ 90
  · have hv : (asciiLower c).toNat = c.toNat + 32 := by
      rw [asciiLower, if_pos h, Char.ofNat,
        dif_pos (Or.inl (by omega) : Char.isValidCharNat (c.toNat + 32))]
      rfl
    calc asciiLower (asciiLower c)
        = if 65 ≤ (asciiLower c).toNat ∧ (asciiLower c).toNat ≤ 90 then
            Char.ofNat ((asciiLower c).toNat + 32) else asciiLower c := rfl
      _ = asciiLower c := if_neg (by rw [hv]; omega)
  · have hc : asciiLower c = c := by rw [asciiLower, if_neg h]
    rw [hc]
    exact hc

/-- dropWhile is idempotent. -/
theorem dropWhile_dropWhile {α : Type} (p : α → Bool) (l : List α) :
    (l.dropWhile p).dropWhile p = l.dropWhile p := by
  induction l with
  | nil => rfl
  | cons a l ih =>
    by_cases h : p a
    · simp [List.dropWhile_cons, h, ih]
    · simp [List.dropWhile_cons, h]

/-- dropWhile removes a prefix: some leading segment restores the list. -/
theorem exists_append_dropWhile {α : Type} (p : α → Bool) (l : List α) :
    ∃ t, t ++ l.dropWhile p = l := by
  induction l with
  | nil => exact ⟨[], rfl⟩
  | cons a l ih =>
    by_cases h : p a
    · obtain ⟨t, ht⟩ := ih
      exact ⟨a :: t, by simp [List.dropWhile_cons, h, ht]⟩
    · exact ⟨[], by simp [List.dropWhile_cons, h]⟩

/-- A list unchanged by dropWhile has an unsatisfied head. -/
theorem head_false_of_dropWhile_self {α : Type} (p : α → Bool) (c : α) (rest : List α)
    (h : (c :: rest).dropWhile p = c :: rest) : p c = false := by
  by_cases hc : p c
  · rw [List.dropWhile_cons, if_pos hc] at h
    have hlen := (List.dropWhile_sublist (l := rest) p).length_le
    rw [h] at hlen
    simp at hlen
  · exact Bool.not_eq_true _ ▸ (by simpa using hc)

/-- Left-trimming fixes every leading segment of a left-trimmed list. -/
theorem dropWhile_eq_self_of_append {α : Type} (p : α → Bool) (v l : List α)
    (h : l.dropWhile p = l) (hpre : ∃ t, v ++ t = l) : v.dropWhile p = v := by
  obtain ⟨t, ht⟩ := hpre
  cases v with
  | nil => rfl
  | cons c v' =>
    have hl : l = c :: (v' ++ t) := by rw [← ht]; rfl
    rw [hl] at h
    have hc : p c = false := head_false_of_dropWhile_self p c (v' ++ t) h
    rw [List.dropWhile_cons, if_neg (by simp [hc])]

/-- rtrimL keeps a prefix of its argument. -/
theorem exists_append_rtrimL (l : List Char) : ∃ t, rtrimL l ++ t = l := by
  obtain ⟨t, ht⟩ := exists_append_dropWhile isJsSpace l.reverse
  refine ⟨t.reverse, ?_⟩
  have := congrArg List.reverse ht
  simpa [rtrimL, List.reverse_append] using this

/-- rtrimL is idempotent. -/
theorem rtrimL_rtrimL (l : List Char) : rtrimL (rtrimL l) = rtrimL l := by
  unfold rtrimL
  rw [List.reverse_reverse, dropWhile_dropWhile]

/-- trimL is idempotent. -/
theorem trimL_trimL (l : List Char) : trimL (trimL l) = trimL l := by
  unfold trimL
  have h1 : ltrimL (ltrimL l) = ltrimL l := dropWhile_dropWhile isJsSpace l
  have h2 : ltrimL (rtrimL (ltrimL l)) = rtrimL (ltrimL l) :=
    dropWhile_eq_self_of_append isJsSpace _ _ h1 (exists_append_rtrimL (ltrimL l))
  rw [h2, rtrimL_rtrimL]

/-- trimL selects a sublist. -/
theorem trimL_sublist (l : List Char) : List.Sublist (trimL l) l := by
  have h1 : List.Sublist (ltrimL l) l := List.dropWhile_sublist _
  have h2 : List.Sublist (rtrimL (ltrimL l)) (ltrimL l) := by
    have h := (List.dropWhile_sublist (l := (ltrimL l).reverse) isJsSpace).reverse
    simpa [rtrimL] using h
  exact h2.trans h1

/-- Lower-casing fixes anything trimmed out of a lower-cased list. -/
theorem lowerL_trimL_lowerL (l : List Char) : lowerL (trimL (lowerL l)) = trimL (lowerL l) := by
  have hfix : ∀ c ∈ trimL (lowerL l), asciiLower c = c := by
    intro c hc
    have hcl : c ∈ lowerL l := (trimL_sublist (lowerL l)).subset hc
    obtain ⟨a, -, rfl⟩ := List.mem_map.mp hcl
    exact asciiLower_idem a
  calc lowerL (trimL (lowerL l)) = List.map id (trimL (lowerL l)) :=
        List.map_congr_left hfix
    _ = trimL (lowerL l) := List.map_id _

/-- Lower-case-then-trim is idempotent on strings. -/
theorem lowerTrim_idem (s : String) :
    jsTrim (jsToLower (jsTrim (jsToLower s))) = jsTrim (jsToLower s) := by
  show (⟨trimL (lowerL (trimL (lowerL s.data)))⟩ : String) = ⟨trimL (lowerL s.data)⟩
  rw [lowerL_trimL_lowerL, trimL_trimL]

/-- Every canonical unit of the alias table normalizes to itself. -/
theorem canonical_fixed : ∀ e ∈ UNIT_ALIASES, normalizeUnit e.1 = e.1 := by decide

end Lemmas

section Claims

/-- C10: the legacy single-line function returns exactly the cost field of
the conversion-aware function called with an empty conversion list. -/
theorem claim_c10_legacy_equiv (ingredient : RecipeIngredientWithInventory) :
    calculateIngredientCost ingredient =
      (calculateIngredientCostWithConversion ingredient []).cost := rfl

/-- C8: calculateRecipeCost is the sum over the lines of the per-line
costs, and calculateRecipeCostDetailed reports the same total. -/
theorem claim_c8_total_is_sum (ingredients : List RecipeIngredientWithInventory)
    (customConversions : List UnitConversion) :
    calculateRecipeCost ingredients customConversions =
      (ingredients.map
        (fun i => (calculateIngredientCostWithConversion i customConversions).cost)).sum ∧
    (calculateRecipeCostDetailed ingredients customConversions).totalCost =
      (ingredients.map
        (fun i => (calculateIngredientCostWithConversion i customConversions).cost)).sum := by
  constructor
  · rw [calculateRecipeCost,
      foldl_add_proj (fun i => (calculateIngredientCostWithConversion i customConversions).cost)]
    ring
  · show (ingredients.map _).foldl _ 0 = _
    rw [foldl_add_proj (fun ic : RecipeIngredientWithInventory × CostCalculationResult => ic.2.cost),
      List.map_map]
    simp [Function.comp_def]

/-- C6: a zero parsed recipe quantity, a zero parsed purchase quantity, or
an unparseable price short-circuits to cost 0 with no mismatch, whatever
the units and conversions. -/
theorem claim_c6_incomplete_guard (ingredient : RecipeIngredientWithInventory)
    (customConversions : List UnitConversion)
    (h : parseFraction ingredient.quantity = 0 ∨
         parseFraction ingredient.inventoryItem.unitQuantity = 0 ∨
         jsParseFloat ingredient.inventoryItem.unitPrice = none) :
    calculateIngredientCostWithConversion ingredient customConversions =
      { cost := 0, hasUnitMismatch := false, usedConversion := none } := by
  rw [calculateIngredientCostWithConversion, if_pos h]

/-- Witness for C6 at a concrete zero-quantity line. -/
theorem claim_c6_incomplete_guard_witness :
    calculateIngredientCostWithConversion c6Line [] =
      { cost := 0, hasUnitMismatch := false, usedConversion := none } :=
  claim_c6_incomplete_guard c6Line [] (Or.inl pf_zero)

/-- C7: whenever the result flags a unit mismatch, the returned cost is
exactly 0, whatever the numeric fields hold. -/
theorem claim_c7_mismatch_zero_cost (ingredient : RecipeIngredientWithInventory)
    (customConversions : List UnitConversion)
    (h : (calculateIngredientCostWithConversion ingredient customConversions).hasUnitMismatch = true) :
    (calculateIngredientCostWithConversion ingredient customConversions).cost = 0 := by
  rw [calculateIngredientCostWithConversion] at h ⊢
  by_cases hg : parseFraction ingredient.quantity = 0 ∨
      parseFraction ingredient.inventoryItem.unitQuantity = 0 ∨
      jsParseFloat ingredient.inventoryItem.unitPrice = none
  · rw [if_pos hg]
  · rw [if_neg hg] at h ⊢
    simp only at h ⊢
    rw [h]
    simp

/-- Witness for C7 at a concrete unresolvable line. -/
theorem claim_c7_mismatch_zero_cost_witness :
    (calculateIngredientCostWithConversion c7Line []).cost = 0 := by
  have hc : calculateIngredientCostWithConversion c7Line [] =
      { cost := 0, hasUnitMismatch := true, usedConversion := none } := by
    rw [calc_main_eq c7Line []
      (by show parseFraction "2" ≠ 0; rw [pf_two]; norm_num)
      (by show parseFraction "1" ≠ 0; rw [pf_one]; norm_num)
      7 jpf_seven]
    rfl
  exact claim_c7_mismatch_zero_cost c7Line [] (by rw [hc])

/-- C9: normalizeUnit is idempotent on every input string. -/
theorem claim_c9_normalize_idempotent (x : String) :
    normalizeUnit (normalizeUnit x) = normalizeUnit x := by
  cases hfind : UNIT_ALIASES.find? (fun e => e.2.contains (jsTrim (jsToLower x))) with
  | some e =>
    have hx : normalizeUnit x = e.1 := by
      simp only [normalizeUnit, hfind]
    rw [hx]
    exact canonical_fixed e (List.mem_of_find?_eq_some hfind)
  | none =>
    have hx : normalizeUnit x = jsTrim (jsToLower x) := by
      simp only [normalizeUnit, hfind]
    rw [hx]
    simp only [normalizeUnit, lowerTrim_idem, hfind]

/-- C5: the mismatch scan is silent on lines whose normalized units agree
or resolve through the standard table, attaches the found custom
conversion with canConvert true, reports canConvert false when nothing
resolves, and the detailed result reports exactly the canConvert-false
warnings. -/
theorem claim_c5_mismatch_scan (convs : List UnitConversion)
    (ing : RecipeIngredientWithInventory) (rest : List RecipeIngredientWithInventory) :
    ((normalizeUnit ing.unit = normalizeUnit ing.inventoryItem.unit ∨
      getStandardConversionFactor (normalizeUnit ing.unit)
        (normalizeUnit ing.inventoryItem.unit) ≠ none) →
      detectUnitMismatches (ing :: rest) convs = detectUnitMismatches rest convs) ∧
    (∀ cc : UnitConversion, normalizeUnit ing.unit ≠ normalizeUnit ing.inventoryItem.unit →
      getStandardConversionFactor (normalizeUnit ing.unit)
        (normalizeUnit ing.inventoryItem.unit) = none →
      convs.find? (customMatches ing) = some cc →
      detectUnitMismatches (ing :: rest) convs =
        mkWarning ing true (some cc) :: detectUnitMismatches rest convs) ∧
    (normalizeUnit ing.unit ≠ normalizeUnit ing.inventoryItem.unit →
      getStandardConversionFactor (normalizeUnit ing.unit)
        (normalizeUnit ing.inventoryItem.unit) = none →
      convs.find? (customMatches ing) = none →
      detectUnitMismatches (ing :: rest) convs =
        mkWarning ing false none :: detectUnitMismatches rest convs) ∧
    (∀ ings : List RecipeIngredientWithInventory,
      (calculateRecipeCostDetailed ings convs).mismatches =
        (detectUnitMismatches ings convs).filter (fun m => !m.canConvert)) := by
  refine ⟨?_, ?_, ?_, fun ings => rfl⟩
  · intro h
    by_cases he : normalizeUnit ing.unit = normalizeUnit ing.inventoryItem.unit
    · simp only [detectUnitMismatches, if_pos he, List.nil_append]
    · cases hstd : getStandardConversionFactor (normalizeUnit ing.unit)
        (normalizeUnit ing.inventoryItem.unit) with
      | none => exact absurd hstd (h.resolve_left he)
      | some v => simp only [detectUnitMismatches, if_neg he, hstd, List.nil_append]
  · intro cc he hstd hfind
    simp only [detectUnitMismatches, if_neg he, hstd, hfind, List.cons_append,
      List.nil_append]
  · intro he hstd hfind
    simp only [detectUnitMismatches, if_neg he, hstd, hfind, List.cons_append,
      List.nil_append]

/-- Witness for C5 at a concrete unresolvable line. -/
theorem claim_c5_mismatch_scan_witness :
    detectUnitMismatches [c5Line] [] = [mkWarning c5Line false none] := by
  have h := (claim_c5_mismatch_scan [] c5Line []).2.2.1 (by decide) (by decide) rfl
  simpa using h

/-- C2 as stated is false: parseQuantity("3/0") is 3, not 0 — the slash
branch is guarded, but the final parseFloat fallback reads the leading 3. -/
theorem claim_c2_counterexample : ¬ (parseFraction "3/0" = 0) := by
  rw [pf_threeSlashZero]
  norm_num

/-- C2 amended: the parser returns 0.5, 1.5, 0.25 and 0 on the first four
probes as claimed, but an ASCII fraction with denominator 0 falls through
to the parseFloat fallback and yields the numerator 3, not 0. -/
theorem claim_c2_parser_values_amended :
    parseFraction "½" = 0.5 ∧ parseFraction "1 ½" = 1.5 ∧ parseFraction "1/4" = 0.25 ∧
    parseFraction "abc" = 0 ∧ parseFraction "3/0" = 3 :=
  ⟨pf_half, pf_oneHalf, pf_quarter, pf_abc, pf_threeSlashZero⟩

/-- C1 as stated is false: g and oz have independently rounded entries in
both directions, and 0.03527 is not the exact reciprocal of 28.3495. -/
theorem claim_c1_counterexample :
    getStandardConversionFactor "g" "oz" = some 0.03527 ∧
    getStandardConversionFactor "oz" "g" = some 28.3495 ∧
    ¬ ((0.03527 : ℚ) = 1 / 28.3495) :=
  ⟨getStd_direct "g" "oz" 0.03527 (by decide) rfl (by norm_num),
   getStd_direct "oz" "g" 28.3495 (by decide) rfl (by norm_num),
   by norm_num⟩

/-- C1 amended: the two factors are exact reciprocals whenever the two
directions are not both stored as explicit table entries — that is, when
the units normalize identically or one direction is resolved by inverting
the entry of the other. -/
theorem claim_c1_reciprocal_amended (a b : String)
    (hnot : ¬ (jsTruthy (stdLookup (normalizeUnit a) (normalizeUnit b)) = true ∧
      jsTruthy (stdLookup (normalizeUnit b) (normalizeUnit a)) = true))
    (v w : ℚ)
    (hv : getStandardConversionFactor a b = some v)
    (hw : getStandardConversionFactor b a = some w) :
    v = 1 / w := by
  simp only [getStandardConversionFactor] at hv hw
  by_cases hxy : normalizeUnit a = normalizeUnit b
  · rw [if_pos hxy] at hv
    rw [if_pos hxy.symm] at hw
    cases hv
    cases hw
    norm_num
  · rw [if_neg hxy] at hv
    rw [if_neg (fun h => hxy h.symm)] at hw
    by_cases h1 : jsTruthy (stdLookup (normalizeUnit a) (normalizeUnit b)) = true
    · have h2 : ¬ jsTruthy (stdLookup (normalizeUnit b) (normalizeUnit a)) = true :=
        fun hh => hnot ⟨h1, hh⟩
      rw [if_pos h1] at hv
      rw [if_neg h2, if_pos h1, hv] at hw
      simp only [Option.map_some'] at hw
      cases hw
      rw [one_div_one_div]
    · by_cases h2 : jsTruthy (stdLookup (normalizeUnit b) (normalizeUnit a)) = true
      · rw [if_neg h1, if_pos h2] at hv
        rw [if_pos h2] at hw
        rw [hw] at hv
        simp only [Option.map_some'] at hv
        cases hv
        rfl
      · rw [if_neg h1, if_neg h2] at hv
        exact absurd hv (by simp)

/-- Witness for C1 amended: lb to g is stored directly and g to lb is
resolved by inversion, and the factors are exact reciprocals. -/
theorem claim_c1_reciprocal_amended_witness :
    getStandardConversionFactor "lb" "g" = some 453.592 ∧
    (453.592 : ℚ) = 1 / (1 / 453.592) := by
  have hv : getStandardConversionFactor "lb" "g" = some 453.592 :=
    getStd_direct "lb" "g" 453.592 (by decide) rfl (by norm_num)
  have hw : getStandardConversionFactor "g" "lb" = some (1 / 453.592) :=
    getStd_inverse "g" "lb" 453.592 (by decide) rfl rfl (by norm_num)
  refine ⟨hv, claim_c1_reciprocal_amended "lb" "g" ?_ 453.592 (1 / 453.592) hv hw⟩
  intro h
  have h2 := h.2
  rw [show jsTruthy (stdLookup (normalizeUnit "g") (normalizeUnit "lb")) = false from rfl] at h2
  exact Bool.false_ne_true h2

/-- C4: with differing units, no standard conversion and a matching custom
conversion present, the first match is applied: its parsed factor scales
the cost, it is recorded as usedConversion, no mismatch is flagged — and a
conversion authored in the reverse direction never matches. -/
theorem claim_c4_custom_directional (ing : RecipeIngredientWithInventory)
    (l₁ l₂ : List UnitConversion) (cc : UnitConversion)
    (hq : parseFraction ing.quantity ≠ 0)
    (hiq : parseFraction ing.inventoryItem.unitQuantity ≠ 0)
    (p : ℚ) (hp : jsParseFloat ing.inventoryItem.unitPrice = some p)
    (hne : normalizeUnit ing.unit ≠ normalizeUnit ing.inventoryItem.unit)
    (hstd : getStandardConversionFactor (normalizeUnit ing.unit)
      (normalizeUnit ing.inventoryItem.unit) = none)
    (hskip : ∀ c ∈ l₁, customMatches ing c = false)
    (hcc : customMatches ing cc = true)
    (f : ℚ) (hf : jsParseFloat cc.conversionFactor = some f) :
    calculateIngredientCostWithConversion ing (l₁ ++ cc :: l₂) =
      { cost := (p / parseFraction ing.inventoryItem.unitQuantity) *
          (parseFraction ing.quantity * f),
        hasUnitMismatch := false,
        usedConversion := some cc } ∧
    (∀ c : UnitConversion, normalizeUnit c.fromUnit = normalizeUnit ing.inventoryItem.unit →
      normalizeUnit c.toUnit = normalizeUnit ing.unit → customMatches ing c = false) := by
  constructor
  · have hfind := find?_append_first (customMatches ing) l₁ l₂ cc hskip hcc
    rw [calc_main_eq ing (l₁ ++ cc :: l₂) hq hiq p hp]
    simp only [if_neg hne, hstd, hfind, hf]
    rfl
  · intro c h1 h2
    have hb : (normalizeUnit c.fromUnit == normalizeUnit ing.unit) = false := by
      rw [h1]
      exact beq_eq_false_iff_ne.mpr (Ne.symm hne)
    simp [customMatches, hb]

/-- Witness for C4 at the end-to-end example of the specification. -/
theorem claim_c4_custom_directional_witness :
    calculateIngredientCostWithConversion c4Line [c4Conv] =
      { cost := 10, hasUnitMismatch := false, usedConversion := some c4Conv } := by
  have h := (claim_c4_custom_directional c4Line [] [] c4Conv
    (by show parseFraction "200" ≠ 0; rw [pf_twoHundred]; norm_num)
    (by show parseFraction "1" ≠ 0; rw [pf_one]; norm_num)
    5 jpf_five
    (by decide) (by decide)
    (fun c hc => absurd hc (List.not_mem_nil c))
    (by decide)
    (1 / 100) jpf_centi).1
  refine Eq.trans h ?_
  rw [show parseFraction c4Line.inventoryItem.unitQuantity = 1 from pf_one,
    show parseFraction c4Line.quantity = 200 from pf_twoHundred]
  norm_num

/-- Any line with non-negative parsed quantities, price and applicable
custom factors costs a non-negative amount. -/
theorem cost_nonneg (ing : RecipeIngredientWithInventory) (convs : List UnitConversion)
    (hq : 0 ≤ parseFraction ing.quantity)
    (hiq : 0 ≤ parseFraction ing.inventoryItem.unitQuantity)
    (hp : 0 ≤ (jsParseFloat ing.inventoryItem.unitPrice).getD 0)
    (hconvs : ∀ c ∈ convs, 0 ≤ (jsParseFloat c.conversionFactor).getD 0) :
    0 ≤ (calculateIngredientCostWithConversion ing convs).cost := by
  by_cases hg : parseFraction ing.quantity = 0 ∨
      parseFraction ing.inventoryItem.unitQuantity = 0 ∨
      jsParseFloat ing.inventoryItem.unitPrice = none
  · rw [calculateIngredientCostWithConversion, if_pos hg]
  · push_neg at hg
    obtain ⟨hq0, hiq0, hp0⟩ := hg
    obtain ⟨p, hp'⟩ := Option.ne_none_iff_exists'.mp hp0
    rw [hp', Option.getD_some] at hp
    rw [calc_main_eq ing convs hq0 hiq0 p hp']
    by_cases hu : normalizeUnit ing.unit = normalizeUnit ing.inventoryItem.unit
    · simp only [if_pos hu]
      show (0 : ℚ) ≤ p / parseFraction ing.inventoryItem.unitQuantity *
        (parseFraction ing.quantity * 1)
      exact mul_nonneg (div_nonneg hp hiq) (mul_nonneg hq zero_le_one)
    · cases hstd : getStandardConversionFactor (normalizeUnit ing.unit)
        (normalizeUnit ing.inventoryItem.unit) with
      | some sc =>
        simp only [if_neg hu, hstd]
        show (0 : ℚ) ≤ p / parseFraction ing.inventoryItem.unitQuantity *
          (parseFraction ing.quantity * sc)
        exact mul_nonneg (div_nonneg hp hiq)
          (mul_nonneg hq (le_of_lt (getStandardConversionFactor_pos _ _ _ hstd)))
      | none =>
        cases hfind : convs.find? (customMatches ing) with
        | some cc =>
          simp only [if_neg hu, hstd, hfind]
          show (0 : ℚ) ≤ p / parseFraction ing.inventoryItem.unitQuantity *
            (parseFraction ing.quantity * (jsParseFloat cc.conversionFactor).getD 0)
          exact mul_nonneg (div_nonneg hp hiq)
            (mul_nonneg hq (hconvs cc (List.mem_of_find?_eq_some hfind)))
        | none =>
          simp only [if_neg hu, hstd, hfind]
          show (0 : ℚ) ≤ 0
          exact le_refl 0

/-- C3 as stated is false: a recipe quantity parsing to a negative number
passes the guards and produces a negative cost even though the inventory
price and purchase quantity are non-negative. -/
theorem claim_c3_counterexample :
    (calculateIngredientCostWithConversion c3NegLine []).cost < 0 ∧
    0 ≤ (jsParseFloat c3NegLine.inventoryItem.unitPrice).getD 0 ∧
    0 ≤ parseFraction c3NegLine.inventoryItem.unitQuantity := by
  have hc : calculateIngredientCostWithConversion c3NegLine [] =
      { cost := 1 / parseFraction c3NegLine.inventoryItem.unitQuantity *
          (parseFraction c3NegLine.quantity * 1),
        hasUnitMismatch := false, usedConversion := none } := by
    rw [calc_main_eq c3NegLine []
      (by show parseFraction "-1" ≠ 0; rw [pf_negOne]; norm_num)
      (by show parseFraction "1" ≠ 0; rw [pf_one]; norm_num)
      1 jpf_one]
    rfl
  refine ⟨?_, ?_, ?_⟩
  · rw [hc]
    show 1 / parseFraction "1" * (parseFraction "-1" * 1) < 0
    rw [pf_one, pf_negOne]
    norm_num
  · show 0 ≤ (jsParseFloat "1").getD 0
    rw [jpf_one]
    norm_num
  · show 0 ≤ parseFraction "1"
    rw [pf_one]
    norm_num

/-- C3 amended: when additionally the parsed recipe quantity and every
custom conversion factor in scope are non-negative, every line cost is
non-negative and exactly 0 on an unresolved line, and the aggregated total
is non-negative. -/
theorem claim_c3_nonneg_amended :
    (∀ (ing : RecipeIngredientWithInventory) (convs : List UnitConversion),
      0 ≤ parseFraction ing.quantity →
      0 ≤ parseFraction ing.inventoryItem.unitQuantity →
      0 ≤ (jsParseFloat ing.inventoryItem.unitPrice).getD 0 →
      (∀ c ∈ convs, 0 ≤ (jsParseFloat c.conversionFactor).getD 0) →
      0 ≤ (calculateIngredientCostWithConversion ing convs).cost ∧
        ((calculateIngredientCostWithConversion ing convs).hasUnitMismatch = true →
          (calculateIngredientCostWithConversion ing convs).cost = 0)) ∧
    (∀ (ings : List RecipeIngredientWithInventory) (convs : List UnitConversion),
      (∀ ing ∈ ings, 0 ≤ parseFraction ing.quantity ∧
        0 ≤ parseFraction ing.inventoryItem.unitQuantity ∧
        0 ≤ (jsParseFloat ing.inventoryItem.unitPrice).getD 0) →
      (∀ c ∈ convs, 0 ≤ (jsParseFloat c.conversionFactor).getD 0) →
      0 ≤ calculateRecipeCost ings convs) := by
  constructor
  · intro ing convs h1 h2 h3 h4
    exact ⟨cost_nonneg ing convs h1 h2 h3 h4, cost_zero_of_mismatch ing convs⟩
  · intro ings convs hlines hconvs
    rw [calculateRecipeCost, foldl_add_proj, zero_add]
    apply List.sum_nonneg
    intro x hx
    obtain ⟨ing, hing, rfl⟩ := List.mem_map.mp hx
    obtain ⟨h1, h2, h3⟩ := hlines ing hing
    exact cost_nonneg ing convs h1 h2 h3 hconvs

/-- Witness for C3 amended at a concrete well-formed line. -/
theorem claim_c3_nonneg_amended_witness :
    0 ≤ (calculateIngredientCostWithConversion c3OkLine []).cost :=
  (claim_c3_nonneg_amended.1 c3OkLine []
    (by show (0 : ℚ) ≤ parseFraction "200"; rw [pf_twoHundred]; norm_num)
    (by show (0 : ℚ) ≤ parseFraction "1000"; rw [pf_thousand]; norm_num)
    (by show (0 : ℚ) ≤ (jsParseFloat "12.00").getD 0; rw [jpf_twelve]; norm_num)
    (fun c hc => absurd hc (List.not_mem_nil c))).1

end Claims

end RecipeVault
